import Mathlib

/-!
Verification of the Meeting Version & Transcript Normalization subsystem of
the meeting-notes-generator repository.

The definitions below are a shallow embedding of the Python source:

* `src/version_manager.py` — class `VersionManager` (metadata records, version
  operations, auto-discovery, meeting-id extraction);
* `src/transcription.py` — the Whisper-output normalization loop
  (`WhisperTranscription.transcribe`, lines 166-220);
* `src/ui/version_panel.py` — the only-version guard in
  `VersionPanel._delete_selected_version`.

File I/O is made explicit: a metadata file is a `FileState` (absent, readable
record, or unparsable content), `os.listdir` is a list of names carried in an
`Env`, wall-clock time and file ctimes are `Env` fields, and whether a disk
write succeeds is the `Env.writeOk` flag.  Python `dict`s keyed by
`str(version_num)` are modelled as association lists over `Nat` keys
(insertion-ordered, like a Python dict; `str` is injective on the ints the
code produces).  Numeric times in the normalizer are modelled as `Rat`
(the Python floats' ideal values).
-/

namespace MeetingNotes

/-- Characters of `s` start with the characters of `p` (Python `str.startswith`). -/
def strStarts (s p : String) : Bool :=
  p.data.isPrefixOf s.data

/-- Characters of `s` end with the characters of `p` (Python `str.endswith`). -/
def strEnds (s p : String) : Bool :=
  p.data.reverse.isPrefixOf s.data.reverse

/-- Python `os.path.join(dir, f)` for a relative `f`. -/
def joinPath (d f : String) : String :=
  d ++ "/" ++ f

/-- Python `os.path.basename`: everything after the last slash. -/
def basename (p : String) : String :=
  ⟨(p.data.reverse.takeWhile (fun c => c ≠ '/')).reverse⟩

/-- Numeric value of a decimal digit character. -/
def digitVal (c : Char) : Nat :=
  c.toNat - '0'.toNat

/-- Decimal digits to a natural number (Python `int` on a digit string). -/
def digitsToNat (ds : List Char) : Nat :=
  ds.foldl (fun a c => 10 * a + digitVal c) 0

/-- One version entry of a meeting's metadata record
(the dict built at `version_manager.py:92-108`). -/
structure Version where
  notes_path : Option String
  transcript_path : Option String
  transcript_json_path : Option String
  model_id : String
  model_name : String
  service_id : String
  service_name : String
  creation_time : String
  name : String
  comments : String
  is_default : Bool
deriving Repr, DecidableEq, Inhabited

/-- A meeting's metadata record (`version_manager.py:147-153`).
`versions` models the Python dict keyed by `str(version_num)`. -/
structure Metadata where
  meeting_id : String
  display_date : String
  creation_time : String
  latest_version : Nat
  versions : List (Nat × Version)
deriving Repr, DecidableEq, Inhabited

/-- The `version_info` argument of `create_or_update_metadata`: a Python dict
whose keys may be absent (`dict.get` defaults are applied in the operation). -/
structure VersionInfo where
  version_num : Option Nat := none
  notes_path : Option String := none
  transcript_path : Option String := none
  transcript_json_path : Option String := none
  model_id : Option String := none
  transcription_service : Option String := none
  creation_time : Option String := none
  name : Option String := none
  comments : Option String := none
  is_default : Option Bool := none
  set_as_default : Bool := false
deriving Repr, Inhabited

/-- State of the metadata file on disk: missing, a readable record, or
content that `json.load` rejects (e.g. a half-written file). -/
inductive FileState where
  | absent
  | good (m : Metadata)
  | bad
deriving Repr, DecidableEq, Inhabited

/-- The ambient filesystem facts an operation depends on. -/
structure Env where
  notes_dir : String
  dir : List String
  ctime : String → String
  now : String
  writeOk : Bool

/-- Static id-to-friendly-name table for models (`version_manager.py:461-468`). -/
def model_names : List (String × String) :=
  [("anthropic.claude-v2", "Claude 2"),
   ("anthropic.claude-v2:1", "Claude 2.1"),
   ("anthropic.claude-3-sonnet-20240229-v1:0", "Claude 3 Sonnet"),
   ("anthropic.claude-3-opus-20240229-v1:0", "Claude 3 Opus"),
   ("anthropic.claude-3-haiku-20240307-v1:0", "Claude 3 Haiku"),
   ("anthropic.claude-3-5-sonnet-20240620-v1:0", "Claude 3.5 Sonnet")]

/-- Python `str.lower` over the characters. -/
def toLowerStr (s : String) : String :=
  ⟨s.data.map Char.toLower⟩

/-- Python `str.title` for ASCII text: a letter after a non-letter is
uppercased, a letter after a letter is lowercased. -/
def titleStr (s : String) : String :=
  ⟨(s.data.foldl
      (fun (acc : List Char × Bool) c =>
        (acc.1 ++ [if acc.2 then c.toLower else c.toUpper], c.isAlpha))
      ([], false)).1⟩

/-- Python `sub in s` on character lists: `sub` occurs contiguously in `l`. -/
def hasSubstring : List Char → List Char → Bool
  | [], sub => sub.isEmpty
  | c :: rest, sub => sub.isPrefixOf (c :: rest) || hasSubstring rest sub

/-- Split a character list on a separator character (Python `str.split(sep)`,
empty parts kept). -/
def splitOnChar (sep : Char) (l : List Char) : List (List Char) :=
  l.foldr
    (fun x acc =>
      match acc with
      | [] => [[x]]
      | a :: as => if x = sep then [] :: a :: as else (x :: a) :: as)
    [[]]

/-- `VersionManager._get_friendly_model_name` (`version_manager.py:452-480`). -/
def get_friendly_model_name (model_id : String) : String :=
  match model_names.find? (fun p => p.1 = model_id) with
  | some p => p.2
  | none =>
    if hasSubstring (toLowerStr model_id).data "claude".data then
      let parts := splitOnChar '.' model_id.data
      if parts.length > 1 then
        titleStr ⟨(parts.getD 1 []).map (fun c => if c = '-' then ' ' else c)⟩
      else model_id
    else model_id

/-- `VersionManager._get_friendly_service_name` (`version_manager.py:482-497`). -/
def get_friendly_service_name (service_type : String) : String :=
  match service_type with
  | "aws" => "AWS Transcribe"
  | "whisper" => "OpenAI Whisper"
  | "mac" => "macOS Built-in"
  | s => s

/-- Dict lookup `versions[k]`. -/
def alGet (l : List (Nat × Version)) (k : Nat) : Option Version :=
  (l.find? (fun kv => kv.1 = k)).map Prod.snd

/-- Dict keys `versions.keys()`. -/
def alKeys (l : List (Nat × Version)) : List Nat :=
  l.map Prod.fst

/-- Dict assignment `versions[k] = v`: overwrite in place, else append. -/
def alInsert (l : List (Nat × Version)) (k : Nat) (v : Version) : List (Nat × Version) :=
  if (alKeys l).contains k then
    l.map (fun kv => if kv.1 = k then (k, v) else kv)
  else
    l ++ [(k, v)]

/-- Dict deletion `del versions[k]`. -/
def alErase (l : List (Nat × Version)) (k : Nat) : List (Nat × Version) :=
  l.filter (fun kv => kv.1 ≠ k)

/-- In-place field update of the entry at key `k`, when present. -/
def alUpdate (l : List (Nat × Version)) (k : Nat) (f : Version → Version) :
    List (Nat × Version) :=
  l.map (fun kv => if kv.1 = k then (kv.1, f kv.2) else kv)

/-- The clear-then-set loop `for ver in versions: is_default = (ver == k)`
(`version_manager.py:112-113` and `264-266`). -/
def alSetDefaults (l : List (Nat × Version)) (k : Nat) : List (Nat × Version) :=
  l.map (fun kv => (kv.1, { kv.2 with is_default := kv.1 = k }))

/-- Number of entries flagged `is_default`. -/
def countDefaults (l : List (Nat × Version)) : Nat :=
  (l.filter (fun kv => kv.2.is_default)).length

/-- Python `max` over the listed keys (only ever applied to a nonempty list
in the source, where `max` of an empty list would raise). -/
def listMax (l : List Nat) : Nat :=
  l.foldl Nat.max 0

/-- An in-place `open(path, "w")` followed by `json.dump`: the file is
truncated first, so a failed write leaves unparsable partial content,
not the previous record. -/
def writeInPlace (ok : Bool) (m : Metadata) : FileState :=
  if ok then .good m else .bad

/-- `VersionManager._create_new_metadata` (`version_manager.py:127-153`). -/
def create_new_metadata (now : String) (meeting_id : String) : Metadata :=
  let d := meeting_id.data
  let display_date :=
    if d.length ≥ 15 then
      (⟨d.take 4⟩ : String) ++ "-" ++ (⟨(d.drop 4).take 2⟩ : String) ++ "-" ++
      (⟨(d.drop 6).take 2⟩ : String) ++ " " ++ (⟨(d.drop 9).take 2⟩ : String) ++
      ":" ++ (⟨(d.drop 11).take 2⟩ : String)
    else "Unknown Date"
  { meeting_id := meeting_id
    display_date := display_date
    creation_time := now
    latest_version := 1
    versions := [] }

/-- `VersionManager.create_or_update_metadata` (`version_manager.py:43-125`).
A read failure on an existing file falls back to a fresh record (lines 66-71);
the final write is inside `try/except`, so the updated record is returned to
the caller whether or not the write succeeded (lines 118-125). -/
def create_or_update_metadata (env : Env) (file : FileState) (meeting_id : String)
    (vi : VersionInfo) : FileState × Metadata :=
  let metadata :=
    match file with
    | .good m => m
    | _ => create_new_metadata env.now meeting_id
  let version_num := vi.version_num.getD 1
  let creation_time := vi.creation_time.getD env.now
  let model_id := vi.model_id.getD "unknown_model"
  let model_name := get_friendly_model_name model_id
  let service_type := vi.transcription_service.getD "unknown_service"
  let service_name := get_friendly_service_name service_type
  let v : Version :=
    { notes_path := vi.notes_path
      transcript_path := vi.transcript_path
      transcript_json_path := vi.transcript_json_path
      model_id := model_id
      model_name := model_name
      service_id := service_type
      service_name := service_name
      creation_time := creation_time
      name := vi.name.getD ("Version " ++ toString version_num)
      comments := vi.comments.getD ""
      is_default := vi.is_default.getD (version_num == 1) }
  let versions1 := alInsert metadata.versions version_num v
  let versions2 :=
    if vi.set_as_default then alSetDefaults versions1 version_num else versions1
  let md' := { metadata with
    versions := versions2
    latest_version := listMax (alKeys versions2) }
  (writeInPlace env.writeOk md', md')

/-- Reading the metadata file: `json.load` of a readable record succeeds,
everything else yields no record. -/
def readGood : FileState → Option Metadata
  | .good m => some m
  | _ => none

/-- The `_v(\d+)\.md$` search of `version_manager.py:206-216`: a filename
ending in `_v<digits>.md` yields those digits. -/
def versionSuffixNum (filename : String) : Option Nat :=
  if strEnds filename ".md" then
    let base := filename.data.take (filename.data.length - 3)
    let ds := base.reverse.takeWhile Char.isDigit
    let rest := base.reverse.drop ds.length
    if ds ≠ [] ∧ ['v', '_'].isPrefixOf rest then some (digitsToNat ds.reverse)
    else none
  else none

/-- One iteration of the `os.listdir` classification loop of
`version_manager.py:191-197` (the `if`/`elif` chain on one listed name). -/
def classifyStep (env : Env) (meeting_id : String)
    (acc : List String × List String × List String) (f : String) :
    List String × List String × List String :=
  if strStarts f ("meeting_notes_" ++ meeting_id) && strEnds f ".md" then
    (acc.1 ++ [joinPath env.notes_dir f], acc.2.1, acc.2.2)
  else if strStarts f ("transcript_" ++ meeting_id) && strEnds f ".txt" then
    (acc.1, acc.2.1 ++ [joinPath env.notes_dir f], acc.2.2)
  else if strStarts f ("transcript_" ++ meeting_id) && strEnds f ".json" then
    (acc.1, acc.2.1, acc.2.2 ++ [joinPath env.notes_dir f])
  else acc

/-- The `os.listdir` classification loop of `version_manager.py:191-197`:
notes files, text transcripts and JSON transcripts for the meeting, in
directory order, joined onto the notes directory. -/
def classifyFiles (env : Env) (meeting_id : String) :
    List String × List String × List String :=
  env.dir.foldl (classifyStep env meeting_id) ([], [], [])

/-- Body of the notes-file loop of `_auto_discover_metadata`
(`version_manager.py:209-243`): derive the version number from the filename
suffix, attach the first matching transcript files, and funnel the entry
through `create_or_update_metadata` (which persists it). -/
def discoverStep (env : Env) (meeting_id : String)
    (transcript_files transcript_json_files : List String)
    (fs : FileState) (notes_path : String) : FileState :=
  let filename := basename notes_path
  let version_num := (versionSuffixNum filename).getD 1
  let transcript_path :=
    transcript_files.find? (fun t => strStarts (basename t) ("transcript_" ++ meeting_id))
  let transcript_json_path :=
    transcript_json_files.find? (fun t => strStarts (basename t) ("transcript_" ++ meeting_id))
  let vi : VersionInfo :=
    { version_num := some version_num
      notes_path := some notes_path
      transcript_path := transcript_path
      transcript_json_path := transcript_json_path
      creation_time := some (env.ctime notes_path)
      is_default := some (version_num == 1) }
  (create_or_update_metadata env fs meeting_id vi).1

/-- `VersionManager._auto_discover_metadata` (`version_manager.py:177-246`).
The source builds an initial record at line 203 that is never read again (each
loop iteration reloads from disk), so it is not materialized here.  The
trailing `return self.get_metadata(meeting_id)` re-reads the file just
written; when nothing was written the source would recurse without bound, so
the embedding returns the plain re-read. -/
def auto_discover_metadata (env : Env) (file : FileState) (meeting_id : String) :
    FileState × Option Metadata :=
  let c := classifyFiles env meeting_id
  if c.1.isEmpty && c.2.1.isEmpty then (file, none)
  else
    let file' := c.1.foldl (discoverStep env meeting_id c.2.1 c.2.2) file
    (file', readGood file')

/-- `VersionManager.get_metadata` (`version_manager.py:155-175`): a readable
file is returned, an unparsable one yields nothing (logged), and a missing
one triggers auto-discovery. -/
def get_metadata (env : Env) (file : FileState) (meeting_id : String) :
    FileState × Option Metadata :=
  match file with
  | .good m => (file, some m)
  | .bad => (file, none)
  | .absent => auto_discover_metadata env file meeting_id

/-- `VersionManager.set_default_version` (`version_manager.py:248-273`).
Every entry's `is_default` is set to `(ver == version_num)` with no membership
check, and the write at lines 270-271 is not guarded, so a write failure
raises to the caller (modelled as `Except.error`). -/
def set_default_version (env : Env) (file : FileState) (meeting_id : String)
    (version_num : Nat) : FileState × Except Unit (Option Metadata) :=
  match get_metadata env file meeting_id with
  | (file1, none) => (file1, .ok none)
  | (_, some md) =>
    let md' := { md with versions := alSetDefaults md.versions version_num }
    if env.writeOk then (.good md', .ok (some md')) else (.bad, .error ())

/-- `VersionManager.rename_version` (`version_manager.py:275-300`): the name
is updated and the file rewritten only when the version key is present;
otherwise the loaded record is returned untouched, with no error. -/
def rename_version (env : Env) (file : FileState) (meeting_id : String)
    (version_num : Nat) (new_name : String) : FileState × Except Unit (Option Metadata) :=
  match get_metadata env file meeting_id with
  | (file1, none) => (file1, .ok none)
  | (file1, some md) =>
    if (alKeys md.versions).contains version_num then
      let md' := { md with
        versions := alUpdate md.versions version_num (fun v => { v with name := new_name }) }
      if env.writeOk then (.good md', .ok (some md')) else (.bad, .error ())
    else (file1, .ok (some md))

/-- `VersionManager.add_comments` (`version_manager.py:302-327`): same shape
as `rename_version`, updating the `comments` field. -/
def add_comments (env : Env) (file : FileState) (meeting_id : String)
    (version_num : Nat) (comments : String) : FileState × Except Unit (Option Metadata) :=
  match get_metadata env file meeting_id with
  | (file1, none) => (file1, .ok none)
  | (file1, some md) =>
    if (alKeys md.versions).contains version_num then
      let md' := { md with
        versions := alUpdate md.versions version_num (fun v => { v with comments := comments }) }
      if env.writeOk then (.good md', .ok (some md')) else (.bad, .error ())
    else (file1, .ok (some md))

/-- `VersionManager.delete_version` (`version_manager.py:499-545`).  Deleting
the last remaining version removes the whole metadata file and returns
nothing; otherwise `latest_version` is recomputed as the numeric max and, when
the deleted version was default, the entry at that max is flagged default.
The final write (lines 542-543) is unguarded. -/
def delete_version (env : Env) (file : FileState) (meeting_id : String)
    (version_num : Nat) : FileState × Except Unit (Option Metadata) :=
  match get_metadata env file meeting_id with
  | (file1, none) => (file1, .ok none)
  | (file1, some md) =>
    if (alKeys md.versions).contains version_num then
      let was_default := ((alGet md.versions version_num).map Version.is_default).getD false
      let versions1 := alErase md.versions version_num
      if versions1.isEmpty then (.absent, .ok none)
      else
        let nums := alKeys versions1
        let latest := if nums.isEmpty then 0 else listMax nums
        let versions2 :=
          if was_default && !nums.isEmpty then
            alUpdate versions1 latest (fun v => { v with is_default := true })
          else versions1
        let md' := { md with versions := versions2, latest_version := latest }
        if env.writeOk then (.good md', .ok (some md')) else (.bad, .error ())
    else (file1, .ok (some md))

/-- `VersionPanel._delete_selected_version` (`src/ui/version_panel.py:585-614`):
the panel refuses (error dialog, no call into the manager) when the meeting
has at most one version; otherwise, on user confirmation, it calls
`delete_version`.  The returned flag records whether a deletion was issued. -/
def panel_delete_selected_version (env : Env) (file : FileState)
    (meeting_id : String) (version_num : Nat) (confirmed : Bool) : FileState × Bool :=
  match get_metadata env file meeting_id with
  | (file1, none) => (file1, false)
  | (file1, some md) =>
    if md.versions.length ≤ 1 then (file1, false)
    else if !confirmed then (file1, false)
    else ((delete_version env file1 meeting_id version_num).1, true)

/-- The leftmost-match core of `re.search(r"meeting_notes_(\d+_\d+).*\.md", f)`
as used at `version_manager.py:432-438`: the trailing `.*\.md` needs an
occurrence of `.md` not separated from the id by a newline (`.` does not
match a newline). -/
def hasDotMdAhead : List Char → Bool
  | '.' :: 'm' :: 'd' :: _ => true
  | '\n' :: _ => false
  | _ :: rest => hasDotMdAhead rest
  | [] => false

/-- Longest leading digit run of a character list and the remainder. -/
def takeDigits : List Char → List Char × List Char
  | [] => ([], [])
  | c :: rest =>
    if c.isDigit then
      let p := takeDigits rest
      (c :: p.1, p.2)
    else ([], c :: rest)

/-- Greedy match of `(\d+_\d+).*\.md` against the text following the literal
`meeting_notes_`; yields the captured group.  (Greedy digit runs are the only
possible match here: a digit run cannot be split at anything but its
non-digit boundary, and `.md` contains no digit, so shrinking a run never
enables a match that the greedy parse misses.) -/
def matchNotesIdHere (cs : List Char) : Option String :=
  let p1 := takeDigits cs
  if p1.1.isEmpty then none
  else
    match p1.2 with
    | '_' :: r2 =>
      let p2 := takeDigits r2
      if p2.1.isEmpty then none
      else if hasDotMdAhead p2.2 then some ⟨p1.1 ++ '_' :: p2.1⟩
      else none
    | _ => none

/-- Scan for the leftmost position where the notes-file pattern matches
(Python `re.search` semantics: on failure the start position advances by one
character). -/
def searchNotesId : List Char → Option String
  | [] => none
  | c :: rest =>
    if "meeting_notes_".data.isPrefixOf (c :: rest) then
      match matchNotesIdHere ((c :: rest).drop 14) with
      | some s => some s
      | none => searchNotesId rest
    else searchNotesId rest

/-- The meeting-id resolver for notes filenames: `group(1)` of
`re.search(r"meeting_notes_(\d+_\d+).*\.md", filename)`
(`version_manager.py:432` and `435-438`). -/
def notesFileMeetingId (filename : String) : Option String :=
  searchNotesId filename.data

/-- One engine segment of a non-diarizing (Whisper-style) transcription
result: the dict `{"start": .., "end": .., "text": ..}` consumed at
`transcription.py:172-175`.  Times are the floats' ideal rational values. -/
structure WSeg where
  segStart : Rat
  segEnd : Rat
  text : String
deriving Repr, DecidableEq, Inhabited

/-- One word-level item of the normalized (AWS-compatible) output
(`transcription.py:200-206`). -/
structure TransItem where
  start_time : Rat
  end_time : Rat
  content : String
  confidence : String
  speaker_label : String
deriving Repr, DecidableEq, Inhabited

/-- One speaker segment of the normalized output (`transcription.py:185-190`,
`209`): label, the segment's time span, and back-references into the flat
item list. -/
structure SpeakerSegment where
  speaker_label : String
  start_time : Rat
  end_time : Rat
  items : List Nat
deriving Repr, DecidableEq, Inhabited

/-- Python `str.split()` with no argument: split on whitespace runs,
discarding empty pieces. -/
def splitWords (text : String) : List String :=
  (text.data.splitOnP (fun c => c.isWhitespace)).filterMap
    (fun w => if w.isEmpty then none else some ⟨w⟩)

/-- The per-word synthesis loop of `transcription.py:192-210` for one
segment: `word_duration = (end - start) / max(len(words), 1)`, word `j`
spanning `[start + j*wd, start + j*wd + wd]`, constant confidence `"1.0"`. -/
def segWordItems (label : String) (s e : Rat) (text : String) : List TransItem :=
  let words := splitWords text
  let wd := (e - s) / (max words.length 1 : Nat)
  words.enum.map
    (fun jw =>
      { start_time := s + jw.1 * wd
        end_time := s + jw.1 * wd + wd
        content := jw.2
        confidence := "1.0"
        speaker_label := label })

/-- The segment loop of `WhisperTranscription.transcribe`
(`transcription.py:166-210`): running speaker index starting at 0 and
incremented (mod 2) whenever `i % 3 == 0`, labels `spk_<index>`, speaker
segments carrying the indices of their items in the flat item list. -/
def whisperNormalize (segments : List WSeg) :
    List SpeakerSegment × List TransItem :=
  let r := segments.enum.foldl
    (fun (acc : Nat × List SpeakerSegment × List TransItem) p =>
      let cur := if p.1 % 3 == 0 then (acc.1 + 1) % 2 else acc.1
      let label := "spk_" ++ toString cur
      let witems := segWordItems label p.2.segStart p.2.segEnd p.2.text
      let sseg : SpeakerSegment :=
        { speaker_label := label
          start_time := p.2.segStart
          end_time := p.2.segEnd
          items := (List.range witems.length).map (fun j => acc.2.2.length + j) }
      (cur, acc.2.1 ++ [sseg], acc.2.2 ++ witems))
    (0, [], [])
  (r.2.1, r.2.2)

/-- Speaker label assigned to segment `i` by `whisperNormalize`, read off the
speaker-segment list. -/
def speakerLabelAt (segments : List WSeg) (i : Nat) : String :=
  (((whisperNormalize segments).1.getD i default).speaker_label)

/-- Unwrap a manager result: the record of a normal return, nothing on a
raised exception. -/
def okRecord : Except Unit (Option Metadata) → Option Metadata
  | .ok r => r
  | .error _ => none

/-- Equality of manager results is decidable. -/
instance : DecidableEq (Except Unit (Option Metadata)) :=
  fun a b =>
    match a, b with
    | .ok x, .ok y =>
      if h : x = y then isTrue (by rw [h]) else isFalse (by intro hc; cases hc; exact h rfl)
    | .error x, .error y => isTrue (by cases x; cases y; rfl)
    | .ok _, .error _ => isFalse (by intro h; cases h)
    | .error _, .ok _ => isFalse (by intro h; cases h)

/-! Concrete scenarios used by the claim theorems. -/

/-- A quiet environment: empty artifact directory, fixed clock, writes
succeed. -/
def cEnv : Env :=
  { notes_dir := "notes"
    dir := []
    ctime := fun _ => "t0"
    now := "now0"
    writeOk := true }

/-- Same environment with failing disk writes. -/
def cEnvBad : Env :=
  { cEnv with writeOk := false }

/-- The record produced by a first `create_or_update_metadata` on a missing
file with an all-defaults `version_info`: a single version 1, flagged
default. -/
def oneVersionMd : Metadata :=
  (create_or_update_metadata cEnv .absent "20240101_120000" {}).2

/-- File state after that first create. -/
def oneVersionFile : FileState :=
  (create_or_update_metadata cEnv .absent "20240101_120000" {}).1

/-- Result of `set_default_version` for absent version 2 on the one-version
meeting. -/
def c1run : FileState × Except Unit (Option Metadata) :=
  set_default_version cEnv oneVersionFile "20240101_120000" 2

/-- The record `set_default_version` writes when asked for absent version 2:
every `is_default` flag cleared. -/
def c5after : Metadata :=
  { oneVersionMd with versions := alSetDefaults oneVersionMd.versions 2 }

/-- A `version_info` adding a version 2 (used by the C4 scenario). -/
def c4vi : VersionInfo :=
  { version_num := some 2 }

/-- The seven equal-length (10 s) segments of the C3 scenario. -/
def c3segs : List WSeg :=
  (List.range 7).map
    (fun i => { segStart := (10 * i : Nat), segEnd := (10 * (i + 1) : Nat), text := "hello world" })

/-- Environment for the C6 auto-discovery scenario: exactly the two notes
files, no metadata file. -/
def c6env : Env :=
  { notes_dir := "notes"
    dir := ["meeting_notes_20240101_120000.md", "meeting_notes_20240101_120000_v2.md"]
    ctime := fun _ => "t0"
    now := "now0"
    writeOk := true }

/-- Result of auto-discovery in the C6 scenario. -/
def c6run : FileState × Option Metadata :=
  auto_discover_metadata c6env .absent "20240101_120000"

/-- The record C6's auto-discovery reconstructs and persists. -/
def c6expected : Metadata :=
  { meeting_id := "20240101_120000"
    display_date := "2024-01-01 12:00"
    creation_time := "now0"
    latest_version := 2
    versions :=
      [(1,
        { notes_path := some "notes/meeting_notes_20240101_120000.md"
          transcript_path := none
          transcript_json_path := none
          model_id := "unknown_model"
          model_name := "unknown_model"
          service_id := "unknown_service"
          service_name := "unknown_service"
          creation_time := "t0"
          name := "Version 1"
          comments := ""
          is_default := true }),
       (2,
        { notes_path := some "notes/meeting_notes_20240101_120000_v2.md"
          transcript_path := none
          transcript_json_path := none
          model_id := "unknown_model"
          model_name := "unknown_model"
          service_id := "unknown_service"
          service_name := "unknown_service"
          creation_time := "t0"
          name := "Version 2"
          comments := ""
          is_default := false })] }

/-- Environment for the C10 witness: two suffix-versioned notes files and two
transcript files of each kind. -/
def c10env : Env :=
  { notes_dir := "notes"
    dir := ["transcript_20240101_120000.txt", "transcript_20240101_120000_v2.txt",
            "meeting_notes_20240101_120000.md", "meeting_notes_20240101_120000_v2.md",
            "transcript_20240101_120000.json", "transcript_20240101_120000_v2.json"]
    ctime := fun _ => "t0"
    now := "now0"
    writeOk := true }

/-- The record auto-discovery reconstructs in the C10 witness scenario. -/
def c10md : Metadata :=
  ((auto_discover_metadata c10env .absent "20240101_120000").2).getD default

/-- A meeting with versions 1 (default) and 2, from two create calls. -/
def twoVersionMd : Metadata :=
  (create_or_update_metadata cEnv (.good oneVersionMd) "20240101_120000" c4vi).2

/-- The single version entry of `oneVersionMd`. -/
def v1entry : Version :=
  (alGet oneVersionMd.versions 1).getD default

/-! Helper lemmas about the association-list and list primitives. -/

theorem foldl_max_eq_or_mem (l : List Nat) (a : Nat) :
    l.foldl Nat.max a = a ∨ l.foldl Nat.max a ∈ l := by
  induction l generalizing a with
  | nil => exact Or.inl rfl
  | cons x xs ih =>
    rw [List.foldl_cons]
    rcases ih (Nat.max a x) with h | h
    · rw [h]
      have h2 : Nat.max a x = a ∨ Nat.max a x = x := by
        show max a x = a ∨ max a x = x
        omega
      rcases h2 with h2 | h2
      · exact Or.inl h2
      · exact Or.inr (by rw [h2]; exact List.mem_cons_self x xs)
    · exact Or.inr (List.mem_cons_of_mem x h)

theorem listMax_mem (l : List Nat) (h : l ≠ []) : listMax l ∈ l := by
  match l with
  | x :: xs =>
    unfold listMax
    rw [List.foldl_cons]
    have h0 : Nat.max 0 x = x := by
      show max 0 x = x
      omega
    rw [h0]
    rcases foldl_max_eq_or_mem xs x with h1 | h1
    · rw [h1]; exact List.mem_cons_self x xs
    · exact List.mem_cons_of_mem x h1

theorem alGet_isSome_of_mem (l : List (Nat × Version)) (k : Nat)
    (h : k ∈ alKeys l) : ∃ v, alGet l k = some v := by
  induction l with
  | nil => simp [alKeys] at h
  | cons kv t ih =>
    by_cases hk : kv.1 = k
    · exact ⟨kv.2, by simp [alGet, List.find?_cons, hk]⟩
    · have h' : k ∈ alKeys t := by
        rcases (by simpa [alKeys] using h : k = kv.1 ∨ k ∈ alKeys t) with h2 | h2
        · exact absurd h2.symm hk
        · exact h2
      obtain ⟨v, hv⟩ := ih h'
      exact ⟨v, by simpa [alGet, List.find?_cons, hk] using hv⟩

theorem alGet_alUpdate_self (l : List (Nat × Version)) (k : Nat) (f : Version → Version) :
    alGet (alUpdate l k f) k = (alGet l k).map f := by
  induction l with
  | nil => rfl
  | cons kv t ih =>
    by_cases hk : kv.1 = k
    · simp [alGet, alUpdate, List.find?_cons, hk]
    · simpa [alGet, alUpdate, List.find?_cons, hk] using ih

theorem countDefaults_alSetDefaults (l : List (Nat × Version)) (k : Nat) :
    countDefaults (alSetDefaults l k) = (alKeys l).count k := by
  induction l with
  | nil => rfl
  | cons kv t ih =>
    by_cases hk : kv.1 = k
    · simp [countDefaults, alSetDefaults, alKeys, List.count_cons, hk, List.filter_cons] at ih ⊢
      omega
    · simp [countDefaults, alSetDefaults, alKeys, List.count_cons, hk, List.filter_cons] at ih ⊢
      omega

theorem alGet_alSetDefaults_self (l : List (Nat × Version)) (k : Nat)
    (h : k ∈ alKeys l) :
    (alGet (alSetDefaults l k) k).map Version.is_default = some true := by
  induction l with
  | nil => simp [alKeys] at h
  | cons kv t ih =>
    by_cases hk : kv.1 = k
    · simp [alGet, alSetDefaults, List.find?_cons, hk]
    · have h' : k ∈ alKeys t := by
        rcases (by simpa [alKeys] using h : k = kv.1 ∨ k ∈ alKeys t) with h2 | h2
        · exact absurd h2.symm hk
        · exact h2
      simpa [alGet, alSetDefaults, List.find?_cons, hk] using ih h'

theorem mem_alInsert (l : List (Nat × Version)) (k : Nat) (v : Version)
    (kv : Nat × Version) (h : kv ∈ alInsert l k v) : kv ∈ l ∨ kv = (k, v) := by
  unfold alInsert at h
  split at h
  · rcases List.mem_map.mp h with ⟨x, hx, hfx⟩
    by_cases hk : x.1 = k
    · simp [hk] at hfx
      exact Or.inr hfx.symm
    · simp [hk] at hfx
      exact Or.inl (hfx ▸ hx)
  · rcases List.mem_append.mp h with h1 | h1
    · exact Or.inl h1
    · exact Or.inr (List.mem_singleton.mp h1)

theorem find?_eq_head? {α : Type} (l : List α) (p : α → Bool)
    (h : ∀ x ∈ l, p x = true) : l.find? p = l.head? := by
  cases l with
  | nil => rfl
  | cons x t => simp [List.find?_cons, h x (List.mem_cons_self x t)]

/-! Claim theorems. -/

/-- C3: on a non-diarizing engine result with 7 segments, normalization
assigns one label (A) to segments 0-2, the other (B) to segments 3-5, and A
again to segment 6; two segments receive the same label exactly when their
indices agree at `i / 3 % 2` (rotation between two labels every 3
segments). -/
theorem speaker_rotation_seven_segments :
    (speakerLabelAt c3segs 1 = speakerLabelAt c3segs 0 ∧
     speakerLabelAt c3segs 2 = speakerLabelAt c3segs 0 ∧
     speakerLabelAt c3segs 4 = speakerLabelAt c3segs 3 ∧
     speakerLabelAt c3segs 5 = speakerLabelAt c3segs 3 ∧
     speakerLabelAt c3segs 0 ≠ speakerLabelAt c3segs 3 ∧
     speakerLabelAt c3segs 6 = speakerLabelAt c3segs 0) ∧
    (∀ i, i < 7 → ∀ j, j < 7 →
      (speakerLabelAt c3segs i = speakerLabelAt c3segs j ↔ i / 3 % 2 = j / 3 % 2)) := by
  decide

/-- C9: the meeting-id resolver strips the `_v3` suffix from a versioned
notes filename. -/
theorem resolve_versioned_notes_filename :
    notesFileMeetingId "meeting_notes_20240315_093000_v3.md" = some "20240315_093000" := by
  decide

/-- C6: auto-discovery over a directory holding exactly
`meeting_notes_20240101_120000.md` and `meeting_notes_20240101_120000_v2.md`
(no metadata file) reconstructs a record with exactly versions 1 and 2,
version 1 flagged default, and persists that record. -/
theorem auto_discovery_two_versions :
    c6run = (.good c6expected, some c6expected) ∧
    alKeys c6expected.versions = [1, 2] ∧
    (alGet c6expected.versions 1).map Version.is_default = some true ∧
    (alGet c6expected.versions 2).map Version.is_default = some false ∧
    countDefaults c6expected.versions = 1 := by
  decide

/-- C1 counterexample: a two-operation sequence (first create, then
`set_default_version` for an absent version number) on a meeting leaves one
version at rest with zero `is_default = true` entries, so the exactly-one-
default invariant fails. -/
theorem zero_defaults_after_absent_set_default :
    ((okRecord c1run.2).map (fun md => (md.versions.length, countDefaults md.versions)))
      = some (1, 0) ∧
    c1run.1 = FileState.good ((okRecord c1run.2).getD default) := by
  decide

/-- C2 counterexample: `delete_version` on the only remaining version does
not fail and does not leave the metadata unchanged: it removes the version
and deletes the entire metadata record. -/
theorem delete_only_version_removes_record :
    oneVersionMd.versions.length = 1 ∧
    delete_version cEnv (.good oneVersionMd) "20240101_120000" 1 = (.absent, .ok none) := by
  decide

/-- C4 counterexample: with a failing disk write, `create_or_update_metadata`
leaves partially written (unparsable) content in place of the previous good
record, and still returns exactly the record a successful run returns — the
failure is not surfaced. -/
theorem failed_write_truncates_and_is_swallowed :
    (create_or_update_metadata cEnvBad (.good oneVersionMd) "20240101_120000" c4vi).1
      = .bad ∧
    (create_or_update_metadata cEnvBad (.good oneVersionMd) "20240101_120000" c4vi).2
      = (create_or_update_metadata cEnv (.good oneVersionMd) "20240101_120000" c4vi).2 := by
  decide

/-- C5 counterexample: `set_default_version` with an absent version number
does not fail with VersionNotFound and does not leave the metadata unchanged:
it clears every `is_default` flag and persists the result. -/
theorem absent_set_default_clears_flags :
    set_default_version cEnv (.good oneVersionMd) "20240101_120000" 2
      = (.good c5after, .ok (some c5after)) ∧
    countDefaults c5after.versions = 0 ∧
    c5after ≠ oneVersionMd := by
  decide

/-- C7: when `delete_version` removes a version that was flagged default and
at least one version remains, the record it writes has `latest_version`
recomputed as the numeric max of the remaining keys and the entry at that max
flagged default. -/
theorem delete_default_promotes_max (env : Env) (md : Metadata) (id : String) (k : Nat)
    (hw : env.writeOk = true)
    (hk : k ∈ alKeys md.versions)
    (hd : (alGet md.versions k).map Version.is_default = some true)
    (hne : alErase md.versions k ≠ []) :
    ∃ md', delete_version env (.good md) id k = (.good md', .ok (some md')) ∧
      md'.latest_version = listMax (alKeys (alErase md.versions k)) ∧
      (alGet md'.versions md'.latest_version).map Version.is_default = some true := by
  have hc : (alKeys md.versions).contains k = true := List.elem_eq_true_of_mem hk
  have hemp : (alErase md.versions k).isEmpty = false := by
    cases h : alErase md.versions k with
    | nil => exact absurd h hne
    | cons a t => rfl
  have hkeysne : alKeys (alErase md.versions k) ≠ [] := by
    cases h : alErase md.versions k with
    | nil => exact absurd h hne
    | cons a t => simp [alKeys]
  have hkemp : (alKeys (alErase md.versions k)).isEmpty = false := by
    cases h : alKeys (alErase md.versions k) with
    | nil => exact absurd h hkeysne
    | cons a t => rfl
  refine ⟨{ md with
      versions := alUpdate (alErase md.versions k)
        (listMax (alKeys (alErase md.versions k))) (fun v => { v with is_default := true })
      latest_version := listMax (alKeys (alErase md.versions k)) }, ?_, rfl, ?_⟩
  · unfold delete_version get_metadata
    simp only [hc, hd, hemp, hkemp, hw, Option.map_some, Option.getD_some,
      Bool.not_false, Bool.and_self, Bool.false_eq_true, if_false, if_true]
  · have hmem : listMax (alKeys (alErase md.versions k)) ∈ alKeys (alErase md.versions k) :=
      listMax_mem _ hkeysne
    obtain ⟨v, hv⟩ := alGet_isSome_of_mem _ _ hmem
    have goal' : (alGet (alUpdate (alErase md.versions k)
        (listMax (alKeys (alErase md.versions k))) (fun v => { v with is_default := true }))
        (listMax (alKeys (alErase md.versions k)))).map Version.is_default = some true := by
      rw [alGet_alUpdate_self, hv]
      rfl
    exact goal'

/-- Witness for C7 at a concrete meeting: versions 1 (default) and 2;
deleting version 1 promotes version 2. -/
theorem delete_default_promotes_max_witness :
    (cEnv.writeOk = true ∧ 1 ∈ alKeys twoVersionMd.versions ∧
     (alGet twoVersionMd.versions 1).map Version.is_default = some true ∧
     alErase twoVersionMd.versions 1 ≠ []) ∧
    (∃ md', delete_version cEnv (.good twoVersionMd) "20240101_120000" 1
        = (.good md', .ok (some md')) ∧
      md'.latest_version = listMax (alKeys (alErase twoVersionMd.versions 1)) ∧
      (alGet md'.versions md'.latest_version).map Version.is_default = some true) :=
  ⟨⟨rfl, by decide, by decide, by decide⟩,
   delete_default_promotes_max cEnv twoVersionMd "20240101_120000" 1 rfl
     (by decide) (by decide) (by decide)⟩

/-- C1 (amended): a first create with no explicit default override yields
metadata whose only version, 1, is the unique default, and
`set_default_version` with a present version number leaves exactly one
default; the exactly-one invariant is not preserved by arbitrary sequences
(an absent-version `set_default_version` clears every flag). -/
theorem single_version_one_default (env : Env) (id : String) (vi : VersionInfo)
    (md : Metadata) (k : Nat)
    (hv : vi.version_num.getD 1 = 1) (hdef : vi.is_default = none)
    (hnodup : (alKeys md.versions).Nodup) (hk : k ∈ alKeys md.versions)
    (hw : env.writeOk = true) :
    countDefaults (create_or_update_metadata env .absent id vi).2.versions = 1 ∧
    ∃ md', set_default_version env (.good md) id k = (.good md', .ok (some md')) ∧
      countDefaults md'.versions = 1 ∧
      (alGet md'.versions k).map Version.is_default = some true := by
  constructor
  · unfold create_or_update_metadata
    simp only [hv, hdef]
    cases hsd : vi.set_as_default <;>
      simp [hsd, alInsert, alKeys, alSetDefaults, countDefaults, List.filter]
  · refine ⟨{ md with versions := alSetDefaults md.versions k }, ?_, ?_, ?_⟩
    · unfold set_default_version get_metadata
      simp only [hw, if_true]
    · show countDefaults (alSetDefaults md.versions k) = 1
      rw [countDefaults_alSetDefaults]
      exact List.count_eq_one_of_mem hnodup hk
    · exact alGet_alSetDefaults_self _ _ hk

/-- Witness for C1 (amended) at the concrete one-version meeting. -/
theorem single_version_one_default_witness :
    ((({} : VersionInfo).version_num.getD 1 = 1) ∧ ({} : VersionInfo).is_default = none ∧
     (alKeys oneVersionMd.versions).Nodup ∧ 1 ∈ alKeys oneVersionMd.versions ∧
     cEnv.writeOk = true) ∧
    (countDefaults (create_or_update_metadata cEnv .absent "20240101_120000"
        ({} : VersionInfo)).2.versions = 1 ∧
     ∃ md', set_default_version cEnv (.good oneVersionMd) "20240101_120000" 1
        = (.good md', .ok (some md')) ∧
      countDefaults md'.versions = 1 ∧
      (alGet md'.versions 1).map Version.is_default = some true) :=
  ⟨⟨rfl, rfl, by decide, by decide, rfl⟩,
   single_version_one_default cEnv "20240101_120000" {} oneVersionMd 1
     rfl rfl (by decide) (by decide) rfl⟩

/-- C2 (amended): `delete_version` itself does not guard the last version —
on a meeting whose only version is `k` it removes the version and deletes the
whole metadata record, returning nothing; the only-version refusal lives in
the UI panel, which leaves the record untouched and issues no delete. -/
theorem delete_last_version_removes_meeting (env : Env) (md : Metadata) (id : String)
    (k : Nat) (v : Version) (c : Bool)
    (hone : md.versions = [(k, v)]) :
    delete_version env (.good md) id k = (.absent, .ok none) ∧
    panel_delete_selected_version env (.good md) id k c = (.good md, false) := by
  constructor
  · unfold delete_version get_metadata
    simp [hone, alKeys, alErase]
  · unfold panel_delete_selected_version get_metadata
    simp [hone]

/-- Witness for C2 (amended) at the concrete one-version meeting. -/
theorem delete_last_version_removes_meeting_witness :
    (oneVersionMd.versions = [(1, v1entry)]) ∧
    (delete_version cEnv (.good oneVersionMd) "20240101_120000" 1 = (.absent, .ok none) ∧
     panel_delete_selected_version cEnv (.good oneVersionMd) "20240101_120000" 1 true
        = (.good oneVersionMd, false)) :=
  ⟨by decide,
   delete_last_version_removes_meeting cEnv oneVersionMd "20240101_120000" 1 v1entry true
     (by decide)⟩

/-- C4 (amended): persistence is an in-place truncate-and-write, so with a
failing write `create_or_update_metadata` leaves unparsable partial content
in place of whatever was there, yet returns exactly the record a successful
run returns (the caught exception is only logged); `set_default_version`'s
unguarded write, by contrast, propagates the failure. -/
theorem failed_write_leaves_partial_and_returns (env : Env) (file : FileState)
    (id : String) (vi : VersionInfo) (md : Metadata) (k : Nat)
    (hw : env.writeOk = false) :
    (create_or_update_metadata env file id vi).1 = .bad ∧
    (create_or_update_metadata env file id vi).2 =
      (create_or_update_metadata { env with writeOk := true } file id vi).2 ∧
    (set_default_version env (.good md) id k).2 = .error () := by
  refine ⟨?_, rfl, ?_⟩
  · unfold create_or_update_metadata writeInPlace
    simp [hw]
  · unfold set_default_version get_metadata
    simp [hw]

/-- Witness for C4 (amended) at the concrete one-version meeting with a
failing disk. -/
theorem failed_write_leaves_partial_and_returns_witness :
    (cEnvBad.writeOk = false) ∧
    ((create_or_update_metadata cEnvBad (.good oneVersionMd) "20240101_120000" c4vi).1 = .bad ∧
     (create_or_update_metadata cEnvBad (.good oneVersionMd) "20240101_120000" c4vi).2 =
       (create_or_update_metadata { cEnvBad with writeOk := true }
         (.good oneVersionMd) "20240101_120000" c4vi).2 ∧
     (set_default_version cEnvBad (.good oneVersionMd) "20240101_120000" 1).2 = .error ()) :=
  ⟨rfl,
   failed_write_leaves_partial_and_returns cEnvBad (.good oneVersionMd) "20240101_120000"
     c4vi oneVersionMd 1 rfl⟩

/-- C5 (amended): none of the three operations reports VersionNotFound for an
absent version: `set_default_version` succeeds and persists a record with
every `is_default` flag cleared (zero defaults), while `rename_version` and
`add_comments` return the loaded record unchanged and perform no write. -/
theorem absent_version_ops_no_error (env : Env) (md : Metadata) (id : String)
    (k : Nat) (s : String)
    (hk : k ∉ alKeys md.versions) (hw : env.writeOk = true) :
    (set_default_version env (.good md) id k =
      (.good { md with versions := alSetDefaults md.versions k },
       .ok (some { md with versions := alSetDefaults md.versions k })) ∧
     countDefaults (alSetDefaults md.versions k) = 0) ∧
    rename_version env (.good md) id k s = (.good md, .ok (some md)) ∧
    add_comments env (.good md) id k s = (.good md, .ok (some md)) := by
  have hc : (alKeys md.versions).contains k = false := by
    cases hcc : (alKeys md.versions).contains k
    · rfl
    · exact absurd (List.mem_of_elem_eq_true hcc) hk
  refine ⟨⟨?_, ?_⟩, ?_, ?_⟩
  · unfold set_default_version get_metadata
    simp only [hw, if_true]
  · rw [countDefaults_alSetDefaults]
    exact List.count_eq_zero.mpr hk
  · unfold rename_version get_metadata
    simp [hc]
    exact fun hmem => absurd hmem hk
  · unfold add_comments get_metadata
    simp [hc]
    exact fun hmem => absurd hmem hk

/-- Witness for C5 (amended): version 2 is absent from the one-version
meeting. -/
theorem absent_version_ops_no_error_witness :
    (2 ∉ alKeys oneVersionMd.versions ∧ cEnv.writeOk = true) ∧
    ((set_default_version cEnv (.good oneVersionMd) "20240101_120000" 2 =
       (.good { oneVersionMd with versions := alSetDefaults oneVersionMd.versions 2 },
        .ok (some { oneVersionMd with versions := alSetDefaults oneVersionMd.versions 2 })) ∧
      countDefaults (alSetDefaults oneVersionMd.versions 2) = 0) ∧
     rename_version cEnv (.good oneVersionMd) "20240101_120000" 2 "x"
        = (.good oneVersionMd, .ok (some oneVersionMd)) ∧
     add_comments cEnv (.good oneVersionMd) "20240101_120000" 2 "x"
        = (.good oneVersionMd, .ok (some oneVersionMd))) :=
  ⟨⟨by decide, rfl⟩,
   absent_version_ops_no_error cEnv oneVersionMd "20240101_120000" 2 "x" (by decide) rfl⟩

theorem segWordItems_length (label : String) (s e : Rat) (text : String) :
    (segWordItems label s e text).length = (splitWords text).length := by
  simp [segWordItems]

theorem segWordItems_getD (label : String) (s e : Rat) (text : String) (j : Nat)
    (hj : j < (splitWords text).length) :
    (segWordItems label s e text).getD j default =
      { start_time := s + j * ((e - s) / ((max (splitWords text).length 1 : Nat) : Rat))
        end_time := s + j * ((e - s) / ((max (splitWords text).length 1 : Nat) : Rat))
                      + (e - s) / ((max (splitWords text).length 1 : Nat) : Rat)
        content := (splitWords text).getD j ""
        confidence := "1.0"
        speaker_label := label } := by
  have hj1 : j < (segWordItems label s e text).length := by
    rw [segWordItems_length]; exact hj
  have hj2 : j < ((splitWords text).enum.map
      (fun jw => ((jw.1 : Rat), jw.2))).length := by
    simpa using hj
  rw [List.getD_eq_getElem _ default hj1, List.getD_eq_getElem _ "" hj]
  unfold segWordItems
  rw [List.getElem_map, List.getElem_enum]

/-- C8: for every non-diarizing engine segment with start `s`, end `e`, and
`n ≥ 1` whitespace-separated words, normalization synthesizes per-word
timestamps with `word_duration = (e - s) / n`, word `j` spanning
`[s + j*wd, s + (j+1)*wd]`; the words partition the segment exactly (first
word starts at `s`, last ends at `e`, consecutive words abut with no gap or
overlap) and every synthesized word carries the constant placeholder
confidence `"1.0"`. -/
theorem word_timestamps_partition_segment (label : String) (s e : Rat) (text : String)
    (hn : 1 ≤ (splitWords text).length) :
    (segWordItems label s e text).length = (splitWords text).length ∧
    (∀ j, j < (splitWords text).length →
      ((segWordItems label s e text).getD j default).start_time
          = s + j * ((e - s) / ((splitWords text).length : Rat)) ∧
      ((segWordItems label s e text).getD j default).end_time
          = s + (j + 1 : Rat) * ((e - s) / ((splitWords text).length : Rat)) ∧
      ((segWordItems label s e text).getD j default).confidence = "1.0" ∧
      ((segWordItems label s e text).getD j default).content
          = (splitWords text).getD j "") ∧
    ((segWordItems label s e text).getD 0 default).start_time = s ∧
    ((segWordItems label s e text).getD ((splitWords text).length - 1) default).end_time = e ∧
    (∀ j, j + 1 < (splitWords text).length →
      ((segWordItems label s e text).getD j default).end_time
        = ((segWordItems label s e text).getD (j + 1) default).start_time) := by
  have hmax : max (splitWords text).length 1 = (splitWords text).length :=
    Nat.max_eq_left hn
  have hcast : ((splitWords text).length : Rat) ≠ 0 := by
    exact_mod_cast Nat.pos_iff_ne_zero.mp hn
  refine ⟨segWordItems_length label s e text, ?_, ?_, ?_, ?_⟩
  · intro j hj
    rw [segWordItems_getD label s e text j hj, hmax]
    refine ⟨rfl, ?_, rfl, rfl⟩
    show s + j * ((e - s) / ((splitWords text).length : Rat))
        + (e - s) / ((splitWords text).length : Rat) = _
    ring
  · rw [segWordItems_getD label s e text 0 hn]
    simp
  · rw [segWordItems_getD label s e text ((splitWords text).length - 1) (by omega), hmax]
    have hsub : (((splitWords text).length - 1 : Nat) : Rat)
        = ((splitWords text).length : Rat) - 1 := by
      push_cast [hn]
      ring
    rw [hsub]
    field_simp
    ring
  · intro j hj
    rw [segWordItems_getD label s e text j (by omega),
      segWordItems_getD label s e text (j + 1) hj, hmax]
    show s + j * ((e - s) / ((splitWords text).length : Rat))
        + (e - s) / ((splitWords text).length : Rat) = _
    push_cast
    ring

/-- Witness for C8 at a concrete two-word segment spanning 0-10 s. -/
theorem word_timestamps_partition_segment_witness :
    (1 ≤ (splitWords "a b").length) ∧
    ((segWordItems "spk_1" 0 10 "a b").length = (splitWords "a b").length ∧
     (∀ j, j < (splitWords "a b").length →
       ((segWordItems "spk_1" 0 10 "a b").getD j default).start_time
           = 0 + j * ((10 - 0) / ((splitWords "a b").length : Rat)) ∧
       ((segWordItems "spk_1" 0 10 "a b").getD j default).end_time
           = 0 + (j + 1 : Rat) * ((10 - 0) / ((splitWords "a b").length : Rat)) ∧
       ((segWordItems "spk_1" 0 10 "a b").getD j default).confidence = "1.0" ∧
       ((segWordItems "spk_1" 0 10 "a b").getD j default).content
           = (splitWords "a b").getD j "") ∧
     ((segWordItems "spk_1" 0 10 "a b").getD 0 default).start_time = 0 ∧
     ((segWordItems "spk_1" 0 10 "a b").getD ((splitWords "a b").length - 1) default).end_time
         = 10 ∧
     (∀ j, j + 1 < (splitWords "a b").length →
       ((segWordItems "spk_1" 0 10 "a b").getD j default).end_time
         = ((segWordItems "spk_1" 0 10 "a b").getD (j + 1) default).start_time)) :=
  ⟨by decide, word_timestamps_partition_segment "spk_1" 0 10 "a b" (by decide)⟩

theorem takeWhile_append_stop (p : Char → Bool) (l r : List Char) (x : Char)
    (hl : ∀ c ∈ l, p c = true) (hx : p x = false) :
    (l ++ x :: r).takeWhile p = l := by
  induction l with
  | nil => simp [List.takeWhile_cons, hx]
  | cons c t ih =>
    rw [List.cons_append, List.takeWhile_cons, hl c (List.mem_cons_self c t)]
    rw [ih (fun d hd => hl d (List.mem_cons_of_mem c hd))]
    simp

theorem basename_joinPath (d f : String) (h : '/' ∉ f.data) :
    basename (joinPath d f) = f := by
  cases f with
  | mk fd =>
    unfold basename joinPath
    rw [String.data_append, String.data_append]
    show (⟨((d.data ++ "/".data ++ fd).reverse.takeWhile (fun c => c ≠ '/')).reverse⟩ : String)
        = ⟨fd⟩
    rw [List.append_assoc, List.reverse_append]
    have h2 : ("/".data ++ fd).reverse = fd.reverse ++ ['/'] := by
      show ('/' :: fd).reverse = _
      rw [List.reverse_cons]
    rw [h2, List.append_assoc, List.singleton_append]
    rw [takeWhile_append_stop _ fd.reverse (d.data.reverse)]
    · rw [List.reverse_reverse]
    · intro c hc
      have : c ∈ fd := List.mem_reverse.mp hc
      have hcne : c ≠ '/' := fun hh => h (hh ▸ this)
      simp [hcne]
    · simp

theorem classify_foldl_txt_mem (env : Env) (id : String) (l : List String)
    (acc : List String × List String × List String) :
    ∀ t ∈ (l.foldl (classifyStep env id) acc).2.1,
      t ∈ acc.2.1 ∨ ∃ f, f ∈ l ∧ t = joinPath env.notes_dir f ∧
        (strStarts f ("transcript_" ++ id) && strEnds f ".txt") = true := by
  induction l generalizing acc with
  | nil => exact fun t ht => Or.inl ht
  | cons x xs ih =>
    intro t ht
    rw [List.foldl_cons] at ht
    rcases ih (classifyStep env id acc x) t ht with h | ⟨f, hf, hjoin, hc⟩
    · unfold classifyStep at h
      split at h
      · exact Or.inl h
      · split at h
        · next hcond =>
          replace h : t ∈ acc.2.1 ++ [joinPath env.notes_dir x] := h
          rcases List.mem_append.mp h with h1 | h1
          · exact Or.inl h1
          · exact Or.inr ⟨x, List.mem_cons_self x xs, List.mem_singleton.mp h1, hcond⟩
        · split at h
          · exact Or.inl h
          · exact Or.inl h
    · exact Or.inr ⟨f, List.mem_cons_of_mem x hf, hjoin, hc⟩

theorem classify_foldl_json_mem (env : Env) (id : String) (l : List String)
    (acc : List String × List String × List String) :
    ∀ t ∈ (l.foldl (classifyStep env id) acc).2.2,
      t ∈ acc.2.2 ∨ ∃ f, f ∈ l ∧ t = joinPath env.notes_dir f ∧
        (strStarts f ("transcript_" ++ id) && strEnds f ".json") = true := by
  induction l generalizing acc with
  | nil => exact fun t ht => Or.inl ht
  | cons x xs ih =>
    intro t ht
    rw [List.foldl_cons] at ht
    rcases ih (classifyStep env id acc x) t ht with h | ⟨f, hf, hjoin, hc⟩
    · unfold classifyStep at h
      split at h
      · exact Or.inl h
      · split at h
        · exact Or.inl h
        · split at h
          · next hcond =>
            replace h : t ∈ acc.2.2 ++ [joinPath env.notes_dir x] := h
            rcases List.mem_append.mp h with h1 | h1
            · exact Or.inl h1
            · exact Or.inr ⟨x, List.mem_cons_self x xs, List.mem_singleton.mp h1, hcond⟩
          · exact Or.inl h
    · exact Or.inr ⟨f, List.mem_cons_of_mem x hf, hjoin, hc⟩

theorem create_paths_invariant (env : Env) (fs : FileState) (id : String)
    (vi : VersionInfo) (tp tj : Option String)
    (hsd : vi.set_as_default = false)
    (hvi_tp : vi.transcript_path = tp) (hvi_tj : vi.transcript_json_path = tj)
    (hfs : ∀ md, readGood fs = some md → ∀ kv ∈ md.versions,
      kv.2.transcript_path = tp ∧ kv.2.transcript_json_path = tj) :
    ∀ md, readGood (create_or_update_metadata env fs id vi).1 = some md →
      ∀ kv ∈ md.versions,
        kv.2.transcript_path = tp ∧ kv.2.transcript_json_path = tj := by
  intro md hmd kv hkv
  unfold create_or_update_metadata writeInPlace at hmd
  by_cases hw : env.writeOk
  · simp only [hw, if_true, readGood] at hmd
    cases hmd
    simp only [hsd, if_false, Bool.false_eq_true] at hkv
    rcases mem_alInsert _ _ _ _ hkv with h1 | h1
    · cases hfile : fs with
      | good m =>
        rw [hfile] at h1 hfs
        exact hfs m rfl kv h1
      | absent =>
        rw [hfile] at h1
        simp [create_new_metadata] at h1
      | bad =>
        rw [hfile] at h1
        simp [create_new_metadata] at h1
    · rw [h1]
      exact ⟨hvi_tp, hvi_tj⟩
  · simp only [hw, if_false, Bool.false_eq_true, readGood] at hmd
    exact absurd hmd (by simp)

theorem discover_foldl_paths (env : Env) (id : String) (tf tjf : List String)
    (l : List String) (fs : FileState)
    (hfs : ∀ md, readGood fs = some md → ∀ kv ∈ md.versions,
      kv.2.transcript_path
          = tf.find? (fun t => strStarts (basename t) ("transcript_" ++ id)) ∧
      kv.2.transcript_json_path
          = tjf.find? (fun t => strStarts (basename t) ("transcript_" ++ id))) :
    ∀ md, readGood (l.foldl (discoverStep env id tf tjf) fs) = some md →
      ∀ kv ∈ md.versions,
        kv.2.transcript_path
            = tf.find? (fun t => strStarts (basename t) ("transcript_" ++ id)) ∧
        kv.2.transcript_json_path
            = tjf.find? (fun t => strStarts (basename t) ("transcript_" ++ id)) := by
  induction l generalizing fs with
  | nil => exact hfs
  | cons x xs ih =>
    rw [List.foldl_cons]
    apply ih
    show ∀ md, readGood (discoverStep env id tf tjf fs x) = some md → _
    unfold discoverStep
    exact create_paths_invariant env fs id _ _ _ rfl rfl rfl hfs

/-- C10: every version entry reconstructed by auto-discovery receives the
same `transcript_path` and the same `transcript_json_path` — the first
directory-listed transcript file of the matching extension for the meeting —
regardless of each version's `_v<n>` suffix (transcripts are not paired to
versions per suffix).  The no-slash hypothesis states that the scanned names
are plain `os.listdir` entries. -/
theorem auto_discovered_versions_share_transcripts (env : Env) (id : String)
    (md : Metadata)
    (hslash : ∀ f ∈ env.dir, '/' ∉ f.data)
    (hres : (auto_discover_metadata env .absent id).2 = some md) :
    ∀ kv ∈ md.versions,
      kv.2.transcript_path = ((classifyFiles env id).2.1).head? ∧
      kv.2.transcript_json_path = ((classifyFiles env id).2.2).head? := by
  have htf : ∀ t ∈ (classifyFiles env id).2.1,
      strStarts (basename t) ("transcript_" ++ id) = true := by
    intro t ht
    rcases classify_foldl_txt_mem env id env.dir ([], [], []) t ht with h | ⟨f, hf, hj, hc⟩
    · simp at h
    · rw [hj, basename_joinPath _ _ (hslash f hf)]
      exact ((Bool.and_eq_true _ _).mp hc).1
  have htj : ∀ t ∈ (classifyFiles env id).2.2,
      strStarts (basename t) ("transcript_" ++ id) = true := by
    intro t ht
    rcases classify_foldl_json_mem env id env.dir ([], [], []) t ht with h | ⟨f, hf, hj, hc⟩
    · simp at h
    · rw [hj, basename_joinPath _ _ (hslash f hf)]
      exact ((Bool.and_eq_true _ _).mp hc).1
  have hfind1 : (classifyFiles env id).2.1.find?
        (fun t => strStarts (basename t) ("transcript_" ++ id))
      = ((classifyFiles env id).2.1).head? :=
    find?_eq_head? _ _ htf
  have hfind2 : (classifyFiles env id).2.2.find?
        (fun t => strStarts (basename t) ("transcript_" ++ id))
      = ((classifyFiles env id).2.2).head? :=
    find?_eq_head? _ _ htj
  unfold auto_discover_metadata at hres
  by_cases hemp : ((classifyFiles env id).1.isEmpty
      && (classifyFiles env id).2.1.isEmpty) = true
  · rw [if_pos hemp] at hres
    exact absurd hres (by simp)
  · rw [if_neg hemp] at hres
    have hmain := discover_foldl_paths env id (classifyFiles env id).2.1
      (classifyFiles env id).2.2 (classifyFiles env id).1 .absent
      (fun m hm => absurd hm (by simp [readGood])) md hres
    intro kv hkv
    rw [← hfind1, ← hfind2]
    exact hmain kv hkv

/-- Witness for C10: a directory with two suffix-versioned notes files and
two transcript files of each kind; both reconstructed versions point at the
first transcript of each kind. -/
theorem auto_discovered_versions_share_transcripts_witness :
    ((∀ f ∈ c10env.dir, '/' ∉ f.data) ∧
     (auto_discover_metadata c10env .absent "20240101_120000").2 = some c10md) ∧
    (∀ kv ∈ c10md.versions,
      kv.2.transcript_path = ((classifyFiles c10env "20240101_120000").2.1).head? ∧
      kv.2.transcript_json_path = ((classifyFiles c10env "20240101_120000").2.2).head?) :=
  ⟨⟨by decide, by decide⟩,
   auto_discovered_versions_share_transcripts c10env "20240101_120000" c10md
     (by decide) (by decide)⟩

end MeetingNotes
